import Mathlib

/-!
Shallow embedding of the uptimemonitor repository (src/traceroute.py and
src/traceroute_monitor.py): the trace-report parsing core of
`run_traceroute`, the observation store operations `save_to_db`,
`get_average_packet_loss` and `get_combined_packet_loss_data`, together
with theorems checking the specification's claims about them.

Loss percentages are modelled as rationals (`ℚ`); the SQLite-backed store
is modelled as a list of rows in insertion (rowid) order; the external
`mtr` subprocess invocation, logging and HTML rendering are out of scope
(the spec treats them as external collaborators), so the parsers are
functions of the captured report text.
-/

namespace UptimeMonitor

/-- Model of Python `str.splitlines()` restricted to the line terminators
`\n`, `\r` and `\r\n` (the only ones occurring in trace-report text):
splits at each terminator and does not produce a trailing empty line. -/
def splitlinesAux : List Char → List Char → List String
  | [], acc => if acc.isEmpty then [] else [String.mk acc.reverse]
  | '\r' :: '\n' :: rest, acc => String.mk acc.reverse :: splitlinesAux rest []
  | '\n' :: rest, acc => String.mk acc.reverse :: splitlinesAux rest []
  | '\r' :: rest, acc => String.mk acc.reverse :: splitlinesAux rest []
  | c :: rest, acc => splitlinesAux rest (c :: acc)

/-- Python `output.splitlines()` on the report text. -/
def splitlines (s : String) : List String :=
  splitlinesAux s.data []

/-- Whitespace characters recognised by Python `str.split()` (ASCII part). -/
def isPySpace (c : Char) : Bool :=
  c = ' ' || c = '\t' || c = '\n' || c = '\r' || c = '\x0b' || c = '\x0c'

/-- Model of Python `line.split()`: splits on runs of whitespace and
returns the nonempty fields. -/
def pySplitAux : List Char → List Char → List String
  | [], acc => if acc.isEmpty then [] else [String.mk acc.reverse]
  | c :: rest, acc =>
    if isPySpace c then
      if acc.isEmpty then pySplitAux rest []
      else String.mk acc.reverse :: pySplitAux rest []
    else pySplitAux rest (c :: acc)

/-- Python `line.split()`. -/
def pySplit (s : String) : List String :=
  pySplitAux s.data []

/-- Python `s.strip('%')`: removes `'%'` characters from both ends. -/
def stripPercent (s : String) : String :=
  String.mk (((s.data.dropWhile (· = '%')).reverse.dropWhile (· = '%')).reverse)

/-- Numeric value of a digit list read in base 10. -/
def digitsToNat (l : List Char) : Nat :=
  l.foldl (fun acc c => acc * 10 + (c.toNat - 48)) 0

/-- Exponent suffix of a Python float literal: empty, or `e`/`E` followed by
an optional sign and at least one digit consuming the rest of the string. -/
def parseExpPart (m : ℚ) : List Char → Option ℚ
  | [] => some m
  | c :: rest =>
    if c = 'e' ∨ c = 'E' then
      let (neg, rest2) :=
        match rest with
        | '+' :: r => (false, r)
        | '-' :: r => (true, r)
        | r => (false, r)
      let ds := rest2.takeWhile Char.isDigit
      if ds.isEmpty ∨ ¬(rest2.dropWhile Char.isDigit).isEmpty then none
      else some (if neg then m / 10 ^ digitsToNat ds else m * 10 ^ digitsToNat ds)
    else none

/-- Unsigned decimal part of a Python float literal: digits with an optional
decimal point (at least one digit overall), then an optional exponent. -/
def parseUnsigned (l : List Char) : Option ℚ :=
  let ip := l.takeWhile Char.isDigit
  let rest := l.dropWhile Char.isDigit
  match rest with
  | '.' :: rest2 =>
    let fp := rest2.takeWhile Char.isDigit
    let rest3 := rest2.dropWhile Char.isDigit
    if ip.isEmpty ∧ fp.isEmpty then none
    else parseExpPart ((digitsToNat ip : ℚ) + (digitsToNat fp : ℚ) / 10 ^ fp.length) rest3
  | _ =>
    if ip.isEmpty then none else parseExpPart (digitsToNat ip : ℚ) rest

/-- Model of Python `float(s)` on the loss-field strings of trace reports:
an optional sign followed by a finite decimal with optional exponent,
valued in `ℚ`. Strings such as `"inf"` or `"nan"` that denote no finite
rational are mapped to `none` (they never lie in `[0,100]`, so downstream
range filtering treats them as the source does). -/
def parseFloat (s : String) : Option ℚ :=
  match s.data with
  | '+' :: rest => parseUnsigned rest
  | '-' :: rest => (parseUnsigned rest).map Neg.neg
  | l => parseUnsigned l

/-- Average step shared by both parser revisions: the arithmetic mean of
the accepted per-hop losses, or `None` when no hop was accepted
(lines 68-76 of src/traceroute.py, lines 76-84 of
src/traceroute_monitor.py). -/
def averageLoss (packet_loss : List ℚ) : Option ℚ :=
  if packet_loss.isEmpty then none
  else some (packet_loss.sum / packet_loss.length)

end UptimeMonitor

namespace Traceroute

open UptimeMonitor

/-- Contribution of one hop line in the src/traceroute.py revision, as an
`Option`: `float(columns[2].strip('%'))` when the line has at least three
whitespace fields and its loss field parses, `none` otherwise. This
revision has no hostname or range check. -/
def hopLoss (line : String) : Option ℚ :=
  match pySplit line with
  | _ :: _ :: loss_str :: _ => parseFloat (stripPercent loss_str)
  | _ => none

/-- Per-hop loop of src/traceroute.py lines 58-66: a line with at least
three whitespace fields contributes `float(columns[2].strip('%'))` when it
parses; malformed or unparseable lines are skipped. No hostname or range
check in this revision. -/
def parseHops : List String → List ℚ
  | [] => []
  | line :: rest =>
    match pySplit line with
    | _ :: _ :: loss_str :: _ =>
      match parseFloat (stripPercent loss_str) with
      | some loss_value => loss_value :: parseHops rest
      | none => parseHops rest
    | _ => parseHops rest

/-- Parsing core of `run_traceroute` in src/traceroute.py lines 54-76:
skip the two header lines and the first hop, collect per-hop losses, and
return their mean or `None`. The subprocess capture is external; the
function consumes the captured report text. -/
def run_traceroute (output : String) : Option ℚ :=
  let lines := (splitlines output).drop 2
  averageLoss (parseHops (lines.drop 1))

end Traceroute

namespace TracerouteMonitor

open UptimeMonitor

/-- Acceptance test for one hop line of src/traceroute_monitor.py lines
57-73, as an `Option`: the contributed loss value, or `none` when the line
is skipped (fewer than three fields, `'???'` hostname, unparseable loss, or
loss outside `[0,100]`). -/
def hopLoss (line : String) : Option ℚ :=
  match pySplit line with
  | _ :: hostname :: loss_str :: _ =>
    if hostname = "???" then none
    else
      match parseFloat (stripPercent loss_str) with
      | some loss_value =>
        if 0 ≤ loss_value ∧ loss_value ≤ 100 then some loss_value else none
      | none => none
  | _ => none

/-- Per-hop loop of src/traceroute_monitor.py lines 57-73: skip lines with
fewer than three fields, lines whose hostname is `'???'`, lines whose loss
field does not parse, and lines whose loss is outside `[0,100]`; the rest
contribute their parsed loss value in order. -/
def parseHops : List String → List ℚ
  | [] => []
  | line :: rest =>
    match pySplit line with
    | _ :: hostname :: loss_str :: _ =>
      if hostname = "???" then parseHops rest
      else
        match parseFloat (stripPercent loss_str) with
        | some loss_value =>
          if 0 ≤ loss_value ∧ loss_value ≤ 100 then loss_value :: parseHops rest
          else parseHops rest
        | none => parseHops rest
    | _ => parseHops rest

/-- Parsing core of `run_traceroute` in src/traceroute_monitor.py lines
54-84: skip the two header lines and the first hop, collect per-hop losses
through the hostname and range filters, and return their mean or `None`. -/
def run_traceroute (output : String) : Option ℚ :=
  let lines := (splitlines output).drop 2
  averageLoss (parseHops (lines.drop 1))

end TracerouteMonitor

namespace UptimeMonitor

/-- One row of the `traceroute_results` table (schema in
src/traceroute_monitor.py lines 433-441), minus the auto-increment `id`:
the store is modelled as a list of rows in insertion (rowid) order. -/
structure Row where
  timestamp : Int
  connection_name : String
  target_ip : String
  packet_loss : ℚ
  deriving DecidableEq, Repr

/-- Store operation `save_to_db` (identical in both source files): a `None`
loss is logged and nothing is inserted; otherwise one row is appended with
the capture-time timestamp. The SQLite connection plumbing is modelled by
explicit state passing of the row list. -/
def save_to_db (store : List Row) (connection_name target_ip : String)
    (packet_loss : Option ℚ) (timestamp : Int) : List Row :=
  match packet_loss with
  | none => store
  | some loss => store ++ [⟨timestamp, connection_name, target_ip, loss⟩]

/-- Value the `else` branch of `get_average_packet_loss` returns when the
SQL `AVG` comes back `NULL` (no matching rows): the code's defined
"no data" result. -/
def noDataSentinel : ℚ := 0

/-- Store operation `get_average_packet_loss(time_window, connection_name)`
(identical in both source files): rows with `timestamp >= now -
time_window*60` and the given connection name are averaged by SQL `AVG`;
an empty match set yields `noDataSentinel`. The wall clock read
`int(time.time())` is the explicit `current_time` argument. -/
def get_average_packet_loss (store : List Row) (current_time : Int)
    (time_window : Int) (connection_name : String) : ℚ :=
  let time_threshold := current_time - time_window * 60
  let rows := store.filter fun r =>
    decide (time_threshold ≤ r.timestamp ∧ r.connection_name = connection_name)
  if rows.isEmpty then noDataSentinel
  else (rows.map Row.packet_loss).sum / rows.length

/-- Stable insertion of a row into a timestamp-sorted list, keeping
store-order among equal timestamps. -/
def insertRow (r : Row) : List Row → List Row
  | [] => [r]
  | x :: xs => if r.timestamp ≤ x.timestamp then r :: x :: xs else x :: insertRow r xs

/-- Stable sort of rows by ascending timestamp, modelling SQLite
`ORDER BY timestamp ASC` with ties kept in rowid order. -/
def sortRows : List Row → List Row
  | [] => []
  | r :: rest => insertRow r (sortRows rest)

/-- The per-connection `SELECT` of `get_combined_packet_loss_data`
(src/traceroute_monitor.py lines 120-126): rows of the last week for one
connection, ordered by ascending timestamp. -/
def query_range (store : List Row) (one_week_ago : Int)
    (connection_name : String) : List Row :=
  sortRows (store.filter fun r =>
    decide (one_week_ago ≤ r.timestamp ∧ r.connection_name = connection_name))

/-- Stable insertion of an integer into a sorted list. -/
def insertSortedInt (a : Int) : List Int → List Int
  | [] => [a]
  | b :: l => if a ≤ b then a :: b :: l else b :: insertSortedInt a l

/-- Insertion sort on integers, modelling Python `sorted` on the
timestamp keys. -/
def sortInts : List Int → List Int
  | [] => []
  | a :: l => insertSortedInt a (sortInts l)

/-- The nested dictionary `combined_data` of
`get_combined_packet_loss_data`: its timestamp keys in insertion order and
its cell lookup (`combined_data[ts].get(name, None)`). -/
structure Combined where
  keys : List Int
  cell : Int → String → Option ℚ

/-- One iteration of the merge loop (src/traceroute_monitor.py lines
133-141): a row with loss in `[0,100]` registers its timestamp key and
sets `combined_data[timestamp][connection_name]`; an out-of-range row is
logged and skipped. -/
def addRow (cd : Combined) (connection_name : String) (timestamp : Int)
    (packet_loss : ℚ) : Combined :=
  if 0 ≤ packet_loss ∧ packet_loss ≤ 100 then
    { keys := if timestamp ∈ cd.keys then cd.keys else cd.keys ++ [timestamp]
      cell := fun t n =>
        if t = timestamp ∧ n = connection_name then some packet_loss else cd.cell t n }
  else cd

/-- The fully built `combined_data` dictionary: both connections' query
results, tagged with their connection name, folded through the merge loop
in source order. -/
def combinedOf (store : List Row) (one_week_ago : Int)
    (nameA nameB : String) : Combined :=
  let qA := query_range store one_week_ago nameA
  let qB := query_range store one_week_ago nameB
  ((qA.map fun r => (nameA, r)) ++ (qB.map fun r => (nameB, r))).foldl
    (fun cd p => addRow cd p.1 p.2.timestamp p.2.packet_loss) ⟨[], fun _ _ => none⟩

/-- Series merger `get_combined_packet_loss_data` (src/traceroute_monitor.py
lines 114-163): build `combined_data`, sort its timestamp keys ascending,
and emit, per timestamp, each connection's cell (`None` when absent). The
source additionally formats the timestamps as date strings for display;
the model keeps the raw timestamps. -/
def get_combined_packet_loss_data (store : List Row) (one_week_ago : Int)
    (nameA nameB : String) : List Int × List (Option ℚ) × List (Option ℚ) :=
  let cd := combinedOf store one_week_ago nameA nameB
  let sorted_timestamps := sortInts cd.keys
  (sorted_timestamps,
   sorted_timestamps.map fun ts => cd.cell ts nameA,
   sorted_timestamps.map fun ts => cd.cell ts nameB)

/-- Predicate of the data-model invariant: a stored loss lies in `[0,100]`. -/
def rowInRange (r : Row) : Prop :=
  0 ≤ r.packet_loss ∧ r.packet_loss ≤ 100

instance (r : Row) : Decidable (rowInRange r) := by
  unfold rowInRange; infer_instance

/-- One capture-parse-store cycle of the src/traceroute_monitor.py main
loop for one interface: parse the captured report and feed the result to
`save_to_db`. -/
structure PipelineOp where
  report : String
  connection_name : String
  target_ip : String
  timestamp : Int

/-- The store update performed by one pipeline cycle of
src/traceroute_monitor.py (main loop lines 445-452). -/
def pipelineStep (store : List Row) (op : PipelineOp) : List Row :=
  save_to_db store op.connection_name op.target_ip
    (TracerouteMonitor.run_traceroute op.report) op.timestamp

/-- Hypothesis class of the refinement claim between the two parser
revisions: a hop line with at least three whitespace-delimited fields, a
hostname field different from the unresolved-host placeholder `'???'`, and
a loss field parsing to a number in `[0,100]`. -/
def goodLine (l : String) : Bool :=
  match pySplit l with
  | _ :: hostname :: loss_str :: _ =>
    decide (hostname ≠ "???") &&
      (match parseFloat (stripPercent loss_str) with
       | some v => decide (0 ≤ v) && decide (v ≤ 100)
       | none => false)
  | _ => false

/-- The deterministic tie-break the merge loop realises for one connection
at one timestamp: dictionary assignment in query order makes the last
in-range row at that timestamp win. -/
def lastInRangeValue (rows : List Row) (ts : Int) : Option ℚ :=
  rows.foldl
    (fun acc r =>
      if ts = r.timestamp ∧ 0 ≤ r.packet_loss ∧ r.packet_loss ≤ 100 then
        some r.packet_loss
      else acc)
    none

end UptimeMonitor

open UptimeMonitor

theorem TracerouteMonitor.parseHops_cons_monitor (line : String) (rest : List String) :
    TracerouteMonitor.parseHops (line :: rest)
      = match TracerouteMonitor.hopLoss line with
        | some v => v :: TracerouteMonitor.parseHops rest
        | none => TracerouteMonitor.parseHops rest := by
  show (match pySplit line with
    | _ :: hostname :: loss_str :: _ =>
      if hostname = "???" then TracerouteMonitor.parseHops rest
      else
        match parseFloat (stripPercent loss_str) with
        | some loss_value =>
          if 0 ≤ loss_value ∧ loss_value ≤ 100 then
            loss_value :: TracerouteMonitor.parseHops rest
          else TracerouteMonitor.parseHops rest
        | none => TracerouteMonitor.parseHops rest
    | _ => TracerouteMonitor.parseHops rest) = _
  unfold TracerouteMonitor.hopLoss
  rcases pySplit line with _ | ⟨c0, _ | ⟨c1, _ | ⟨c2, cs⟩⟩⟩
  · rfl
  · rfl
  · rfl
  · by_cases h1 : c1 = "???"
    · simp [h1]
    · simp only [if_neg h1]
      rcases parseFloat (stripPercent c2) with _ | v
      · rfl
      · by_cases h2 : 0 ≤ v ∧ v ≤ 100
        · simp [h2]
        · simp [h2]

theorem TracerouteMonitor.parseHops_eq_filterMap (ls : List String) :
    TracerouteMonitor.parseHops ls = ls.filterMap TracerouteMonitor.hopLoss := by
  induction ls with
  | nil => rfl
  | cons line rest ih =>
    rw [TracerouteMonitor.parseHops_cons_monitor, List.filterMap_cons]
    rcases TracerouteMonitor.hopLoss line with _ | v <;> simp [ih]

theorem TracerouteMonitor.hopLoss_some_iff (l : String) (v : ℚ) :
    TracerouteMonitor.hopLoss l = some v ↔
      ∃ c0 hostname loss_str restf,
        pySplit l = c0 :: hostname :: loss_str :: restf
        ∧ hostname ≠ "???"
        ∧ parseFloat (stripPercent loss_str) = some v
        ∧ 0 ≤ v ∧ v ≤ 100 := by
  unfold TracerouteMonitor.hopLoss
  rcases hsp : pySplit l with _ | ⟨c0, _ | ⟨c1, _ | ⟨c2, cs⟩⟩⟩
  · simp
  · simp
  · simp
  · by_cases h1 : c1 = "???"
    · simp [h1]
    · simp only [if_neg h1]
      rcases hpf : parseFloat (stripPercent c2) with _ | w
      · simp [hpf]
      · by_cases h2 : 0 ≤ w ∧ w ≤ 100
        · simp only [if_pos h2]
          constructor
          · rintro ⟨rfl⟩
            exact ⟨c0, c1, c2, cs, rfl, h1, hpf, h2⟩
          · rintro ⟨d0, hn, ls', rf, heq, -, hpf', -⟩
            cases heq
            rw [hpf] at hpf'
            cases hpf'
            rfl
        · simp only [if_neg h2]
          constructor
          · rintro ⟨⟩
          · rintro ⟨d0, hn, ls', rf, heq, -, hpf', hv0, hv1⟩
            cases heq
            rw [hpf] at hpf'
            cases hpf'
            exact absurd ⟨hv0, hv1⟩ h2

theorem TracerouteMonitor.parseHops_mem_range (ls : List String) :
    ∀ v ∈ TracerouteMonitor.parseHops ls, 0 ≤ v ∧ v ≤ 100 := by
  induction ls with
  | nil => intro v hv; cases hv
  | cons line rest ih =>
    intro v hv
    rw [TracerouteMonitor.parseHops_cons_monitor] at hv
    rcases hl : TracerouteMonitor.hopLoss line with _ | w
    · rw [hl] at hv
      exact ih v hv
    · rw [hl] at hv
      rcases List.mem_cons.mp hv with rfl | hv'
      · rcases (TracerouteMonitor.hopLoss_some_iff line v).mp hl with
          ⟨_, _, _, _, _, _, _, h0, h1⟩
        exact ⟨h0, h1⟩
      · exact ih v hv'

theorem UptimeMonitor.averageLoss_mem_range (l : List ℚ)
    (hl : ∀ v ∈ l, 0 ≤ v ∧ v ≤ 100) (w : ℚ) (hw : averageLoss l = some w) :
    0 ≤ w ∧ w ≤ 100 := by
  unfold averageLoss at hw
  by_cases he : l.isEmpty
  · rw [if_pos he] at hw; cases hw
  · rw [if_neg he] at hw
    cases hw
    have hlen : 0 < (l.length : ℚ) := by
      have : l ≠ [] := fun h => he (by simp [h])
      have : 0 < l.length := List.length_pos.mpr this
      exact_mod_cast this
    constructor
    · exact div_nonneg (List.sum_nonneg fun x hx => (hl x hx).1) hlen.le
    · rw [div_le_iff₀ hlen]
      have := List.sum_le_card_nsmul l 100 fun x hx => (hl x hx).2
      simpa [nsmul_eq_mul, mul_comm] using this

/-- C2: For every connection name and every time window over which the
store holds zero matching Observations, `get_average_packet_loss` returns
the defined "no data" sentinel (the value of its empty-`AVG` branch),
totally and without any division by zero, rather than an arithmetic mean. -/
theorem C2_empty_window_average_sentinel (store : List Row)
    (current_time time_window : Int) (c : String)
    (h : store.filter (fun r =>
        decide (current_time - time_window * 60 ≤ r.timestamp ∧ r.connection_name = c)) = []) :
    get_average_packet_loss store current_time time_window c = noDataSentinel := by
  show (let rows := store.filter fun r =>
      decide (current_time - time_window * 60 ≤ r.timestamp ∧ r.connection_name = c)
    if rows.isEmpty then noDataSentinel
    else (rows.map Row.packet_loss).sum / rows.length) = noDataSentinel
  rw [h]
  rfl

theorem C2_empty_window_average_sentinel_witness :
    get_average_packet_loss [] 0 15 "ISP-A" = noDataSentinel :=
  C2_empty_window_average_sentinel [] 0 15 "ISP-A" rfl

unseal Rat.add Rat.mul Rat.inv Rat.sub in
/-- C5: On the concrete report of two header lines, a first hop, a hop
with loss `0.0%`, a hop with loss `abc%`, a hop with loss `150%` and a hop
with loss `5.0%`, the monitor parser accepts exactly the losses `0` and `5`
(the first hop is dropped, `abc%` is unparseable, `150%` is out of range)
and returns their mean `5/2 = 2.5`. -/
theorem C5_concrete_report_mean :
    TracerouteMonitor.parseHops
        (((splitlines ("Host Loss% Snt Last\n---\n 1.|-- gw.local 0.0% 1\n 2.|-- one.net 0.0% 1\n 3.|-- two.net abc% 1\n 4.|-- three.net 150% 1\n 5.|-- four.net 5.0% 1")).drop 2).drop 1)
      = [0, 5]
    ∧ TracerouteMonitor.run_traceroute
        "Host Loss% Snt Last\n---\n 1.|-- gw.local 0.0% 1\n 2.|-- one.net 0.0% 1\n 3.|-- two.net abc% 1\n 4.|-- three.net 150% 1\n 5.|-- four.net 5.0% 1"
      = some (5 / 2) := by
  constructor
  · decide
  · decide

/-- C6: Every report whose hop lines are all rejected by the filters
yields the `None` "no data" signal, which is distinct from a genuine mean
of zero (`some 0`). -/
theorem C6_no_valid_hops_gives_none (output : String)
    (h : TracerouteMonitor.parseHops (((splitlines output).drop 2).drop 1) = []) :
    TracerouteMonitor.run_traceroute output = none
    ∧ TracerouteMonitor.run_traceroute output ≠ some 0 := by
  have hrun : TracerouteMonitor.run_traceroute output
      = averageLoss (TracerouteMonitor.parseHops (((splitlines output).drop 2).drop 1)) := rfl
  rw [hrun, h]
  exact ⟨rfl, by simp [averageLoss]⟩

theorem C6_no_valid_hops_gives_none_witness :
    TracerouteMonitor.run_traceroute "h1\nh2\nhop0\n 2.|-- ??? 10.0% 1" = none
    ∧ TracerouteMonitor.run_traceroute "h1\nh2\nhop0\n 2.|-- ??? 10.0% 1" ≠ some 0 :=
  C6_no_valid_hops_gives_none "h1\nh2\nhop0\n 2.|-- ??? 10.0% 1" (by decide)

/-- C8: Both parser revisions compute their result from the report lines
after the two header lines and the first hop only: two reports that agree
on every line from the fourth onward produce equal results, whatever their
first three lines are — so the header preamble and the first hop are
excluded even when the first-hop line is otherwise valid. -/
theorem C8_first_three_lines_excluded (t t' a b c a' b' c' : String)
    (rest : List String)
    (h : splitlines t = a :: b :: c :: rest)
    (h' : splitlines t' = a' :: b' :: c' :: rest) :
    TracerouteMonitor.run_traceroute t = TracerouteMonitor.run_traceroute t'
    ∧ Traceroute.run_traceroute t = Traceroute.run_traceroute t' := by
  unfold TracerouteMonitor.run_traceroute Traceroute.run_traceroute
  rw [h, h']
  exact ⟨rfl, rfl⟩

theorem C8_first_three_lines_excluded_witness :
    TracerouteMonitor.run_traceroute "x\ny\n 1.|-- valid.net 40.0% 1\n 2.|-- a.net 6.0% 1"
      = TracerouteMonitor.run_traceroute "p\nq\n 1.|-- other.net 90.0% 1\n 2.|-- a.net 6.0% 1"
    ∧ Traceroute.run_traceroute "x\ny\n 1.|-- valid.net 40.0% 1\n 2.|-- a.net 6.0% 1"
      = Traceroute.run_traceroute "p\nq\n 1.|-- other.net 90.0% 1\n 2.|-- a.net 6.0% 1" :=
  C8_first_three_lines_excluded
    "x\ny\n 1.|-- valid.net 40.0% 1\n 2.|-- a.net 6.0% 1"
    "p\nq\n 1.|-- other.net 90.0% 1\n 2.|-- a.net 6.0% 1"
    "x" "y" " 1.|-- valid.net 40.0% 1" "p" "q" " 1.|-- other.net 90.0% 1"
    [" 2.|-- a.net 6.0% 1"] (by decide) (by decide)

/-- C4: For every trace report, the monitor parser's result is computed
from exactly the hop lines (after the two header lines and the first hop)
accepted by `hopLoss` — at least three whitespace fields, a hostname other
than the `'???'` placeholder, and a loss field parsing to a number in
`[0,100]`; the per-hop loop equals a filter, the acceptance condition is
characterised exactly, and dropping the rejected lines never shifts the
computed mean. -/
theorem C4_parser_accepts_exactly_valid_hops (output : String) :
    TracerouteMonitor.run_traceroute output
      = averageLoss (TracerouteMonitor.parseHops
          (((((splitlines output).drop 2).drop 1).filter
            fun l => (TracerouteMonitor.hopLoss l).isSome)))
    ∧ (∀ ls : List String,
        TracerouteMonitor.parseHops ls = ls.filterMap TracerouteMonitor.hopLoss)
    ∧ (∀ l v, TracerouteMonitor.hopLoss l = some v ↔
        ∃ c0 hostname loss_str restf,
          pySplit l = c0 :: hostname :: loss_str :: restf
          ∧ hostname ≠ "???"
          ∧ parseFloat (stripPercent loss_str) = some v
          ∧ 0 ≤ v ∧ v ≤ 100) := by
  refine ⟨?_, TracerouteMonitor.parseHops_eq_filterMap, TracerouteMonitor.hopLoss_some_iff⟩
  have : ∀ ls : List String,
      TracerouteMonitor.parseHops ls
        = TracerouteMonitor.parseHops
            (ls.filter fun l => (TracerouteMonitor.hopLoss l).isSome) := by
    intro ls
    rw [TracerouteMonitor.parseHops_eq_filterMap, TracerouteMonitor.parseHops_eq_filterMap,
      List.filterMap_filter]
    congr 1
    funext l
    rcases h : TracerouteMonitor.hopLoss l with _ | v <;> simp [h]
  have hrun : TracerouteMonitor.run_traceroute output
      = averageLoss (TracerouteMonitor.parseHops (((splitlines output).drop 2).drop 1)) := rfl
  rw [hrun, this]

unseal Rat.add Rat.mul Rat.inv Rat.sub in
/-- C1 counterexample: the src/traceroute.py revision of `run_traceroute`
has no range filter, so on a report whose second hop reads `150%` it
returns the non-`None` loss `150`, and feeding that pipeline value to
`save_to_db` inserts an Observation whose loss lies outside `[0,100]`. -/
theorem C1_out_of_range_write_counterexample :
    Traceroute.run_traceroute "Start\nHOST: x Loss%\n 1.|-- gw 0.0% 1\n 2.|-- up.net 150% 1"
      = some 150
    ∧ save_to_db []
        "ISP-A" "1.1.1.1"
        (Traceroute.run_traceroute "Start\nHOST: x Loss%\n 1.|-- gw 0.0% 1\n 2.|-- up.net 150% 1")
        42
      = [⟨42, "ISP-A", "1.1.1.1", 150⟩]
    ∧ ¬((150 : ℚ) ≤ 100) := by
  refine ⟨by decide, by decide, by decide⟩

theorem TracerouteMonitor.run_traceroute_some_range (output : String) (v : ℚ)
    (h : TracerouteMonitor.run_traceroute output = some v) : 0 ≤ v ∧ v ≤ 100 := by
  have hrun : TracerouteMonitor.run_traceroute output
      = averageLoss (TracerouteMonitor.parseHops (((splitlines output).drop 2).drop 1)) := rfl
  rw [hrun] at h
  exact averageLoss_mem_range _
    (TracerouteMonitor.parseHops_mem_range _) v h

/-- C1 (amended to the src/traceroute_monitor.py revision, whose parser
carries the range filter): `save_to_db` with a `None` loss inserts nothing
and returns normally; every non-`None` value the monitor parser can pass
to `save_to_db` lies in `[0,100]`; and hence over every sequence of
capture-parse-store cycles, a store holding only in-range Observations
never acquires an out-of-range one. The src/traceroute.py revision does
not have this property (see the counterexample). -/
theorem C1_no_out_of_range_write_amended :
    (∀ (store : List Row) (c t : String) (ts : Int), save_to_db store c t none ts = store)
    ∧ (∀ (output : String) (v : ℚ),
        TracerouteMonitor.run_traceroute output = some v → 0 ≤ v ∧ v ≤ 100)
    ∧ (∀ (ops : List PipelineOp) (store : List Row),
        (∀ r ∈ store, rowInRange r) →
        ∀ r ∈ ops.foldl pipelineStep store, rowInRange r) := by
  refine ⟨fun _ _ _ _ => rfl, TracerouteMonitor.run_traceroute_some_range, ?_⟩
  intro ops
  induction ops with
  | nil => intro store hs r hr; exact hs r hr
  | cons op rest ih =>
    intro store hs r hr
    rw [List.foldl_cons] at hr
    refine ih (pipelineStep store op) ?_ r hr
    intro r' hr'
    unfold pipelineStep save_to_db at hr'
    rcases hp : TracerouteMonitor.run_traceroute op.report with _ | v
    · rw [hp] at hr'
      exact hs r' hr'
    · rw [hp] at hr'
      rcases List.mem_append.mp hr' with h' | h'
      · exact hs r' h'
      · rcases List.mem_singleton.mp h' with rfl
        exact TracerouteMonitor.run_traceroute_some_range op.report v hp

unseal Rat.add Rat.mul Rat.inv Rat.sub in
theorem C1_no_out_of_range_write_amended_witness :
    save_to_db [] "ISP-A" "1.1.1.1" none 7 = []
    ∧ (0 ≤ (6 : ℚ) ∧ (6 : ℚ) ≤ 100)
    ∧ rowInRange ⟨9, "ISP-A", "1.1.1.1", 6⟩ :=
  ⟨C1_no_out_of_range_write_amended.1 [] "ISP-A" "1.1.1.1" 7,
   C1_no_out_of_range_write_amended.2.1 "h1\nh2\nhop0\n 2.|-- a.net 6.0% 1" 6 (by decide),
   C1_no_out_of_range_write_amended.2.2
     [⟨"h1\nh2\nhop0\n 2.|-- a.net 6.0% 1", "ISP-A", "1.1.1.1", 9⟩] []
     (by intro r hr; cases hr)
     ⟨9, "ISP-A", "1.1.1.1", 6⟩ (by decide)⟩

theorem Traceroute.parseHops_cons_old (line : String) (rest : List String) :
    Traceroute.parseHops (line :: rest)
      = match Traceroute.hopLoss line with
        | some v => v :: Traceroute.parseHops rest
        | none => Traceroute.parseHops rest := by
  show (match pySplit line with
    | _ :: _ :: loss_str :: _ =>
      match parseFloat (stripPercent loss_str) with
      | some loss_value => loss_value :: Traceroute.parseHops rest
      | none => Traceroute.parseHops rest
    | _ => Traceroute.parseHops rest) = _
  unfold Traceroute.hopLoss
  rcases pySplit line with _ | ⟨c0, _ | ⟨c1, _ | ⟨c2, cs⟩⟩⟩
  · rfl
  · rfl
  · rfl
  · rcases parseFloat (stripPercent c2) with _ | v
    · rfl
    · rfl

theorem Traceroute.hopLoss_eq (l c0 c1 c2 : String) (cs : List String)
    (hps : pySplit l = c0 :: c1 :: c2 :: cs) :
    Traceroute.hopLoss l = parseFloat (stripPercent c2) := by
  unfold Traceroute.hopLoss
  rw [hps]

theorem hopLoss_old_of_monitor (l : String) (v : ℚ)
    (h : TracerouteMonitor.hopLoss l = some v) :
    Traceroute.hopLoss l = some v := by
  obtain ⟨c0, c1, c2, cs, hps, -, hparse, -, -⟩ :=
    (TracerouteMonitor.hopLoss_some_iff l v).mp h
  rw [Traceroute.hopLoss_eq l c0 c1 c2 cs hps]
  exact hparse

theorem goodLine_eq_isSome (l : String) :
    goodLine l = (TracerouteMonitor.hopLoss l).isSome := by
  unfold goodLine TracerouteMonitor.hopLoss
  rcases pySplit l with _ | ⟨c0, _ | ⟨c1, _ | ⟨c2, cs⟩⟩⟩
  · rfl
  · rfl
  · rfl
  · by_cases h1 : c1 = "???"
    · simp [h1]
    · simp only [if_neg h1]
      rcases parseFloat (stripPercent c2) with _ | v
      · simp [h1]
      · by_cases h2 : 0 ≤ v ∧ v ≤ 100
        · simp [h1, h2]
        · simp [h1, h2]
          intro h0
          by_contra hcon
          exact h2 ⟨h0, le_of_not_lt hcon⟩

theorem parseHops_agree (ls : List String) (h : ∀ l ∈ ls, goodLine l = true) :
    Traceroute.parseHops ls = TracerouteMonitor.parseHops ls := by
  induction ls with
  | nil => rfl
  | cons line rest ih =>
    have hline := h line (List.mem_cons_self line rest)
    have hrest := ih fun l hl => h l (List.mem_cons_of_mem line hl)
    rw [goodLine_eq_isSome] at hline
    obtain ⟨v, hv⟩ := Option.isSome_iff_exists.mp hline
    have hold := hopLoss_old_of_monitor line v hv
    rw [Traceroute.parseHops_cons_old, TracerouteMonitor.parseHops_cons_monitor, hv, hold, hrest]

theorem parseHops_sublist (ls : List String) :
    (TracerouteMonitor.parseHops ls).Sublist (Traceroute.parseHops ls) := by
  induction ls with
  | nil => exact List.Sublist.refl []
  | cons line rest ih =>
    rw [Traceroute.parseHops_cons_old, TracerouteMonitor.parseHops_cons_monitor]
    rcases hm : TracerouteMonitor.hopLoss line with _ | v
    · rcases ho : Traceroute.hopLoss line with _ | w
      · exact ih
      · exact ih.cons w
    · rw [hopLoss_old_of_monitor line v hm]
      exact ih.cons₂ v

/-- C10: On every report whose hop lines (after the two header lines and
the first hop) all have at least three whitespace fields, a hostname other
than `'???'` and a loss parsing to a number in `[0,100]`, the
src/traceroute.py parser and the src/traceroute_monitor.py parser return
equal results; and unconditionally the newer revision only restricts which
hops are accepted (its accepted-loss list is a sublist of the older
revision's). -/
theorem C10_monitor_refines_old (output : String)
    (h : ∀ l ∈ ((splitlines output).drop 2).drop 1, goodLine l = true) :
    Traceroute.run_traceroute output = TracerouteMonitor.run_traceroute output
    ∧ ∀ ls : List String,
        (TracerouteMonitor.parseHops ls).Sublist (Traceroute.parseHops ls) := by
  refine ⟨?_, parseHops_sublist⟩
  have h1 : Traceroute.run_traceroute output
      = averageLoss (Traceroute.parseHops (((splitlines output).drop 2).drop 1)) := rfl
  have h2 : TracerouteMonitor.run_traceroute output
      = averageLoss (TracerouteMonitor.parseHops (((splitlines output).drop 2).drop 1)) := rfl
  rw [h1, h2, parseHops_agree _ h]

unseal Rat.add Rat.mul Rat.inv Rat.sub in
theorem C10_monitor_refines_old_witness :
    Traceroute.run_traceroute "h1\nh2\nhop0\n 2.|-- a.net 6.0% 1\n 3.|-- b.net 4.0% 1"
      = TracerouteMonitor.run_traceroute "h1\nh2\nhop0\n 2.|-- a.net 6.0% 1\n 3.|-- b.net 4.0% 1" :=
  (C10_monitor_refines_old "h1\nh2\nhop0\n 2.|-- a.net 6.0% 1\n 3.|-- b.net 4.0% 1"
    (by decide)).1

theorem mem_insertRow (r x : Row) (l : List Row) :
    x ∈ insertRow r l ↔ x = r ∨ x ∈ l := by
  induction l with
  | nil => simp [insertRow]
  | cons y ys ih =>
    unfold insertRow
    by_cases h : r.timestamp ≤ y.timestamp
    · rw [if_pos h]
      simp
    · rw [if_neg h]
      simp [ih]
      tauto

theorem mem_sortRows (x : Row) (l : List Row) :
    x ∈ sortRows l ↔ x ∈ l := by
  induction l with
  | nil => simp [sortRows]
  | cons y ys ih =>
    unfold sortRows
    rw [mem_insertRow]
    simp [ih]

theorem mem_query_range (store : List Row) (w : Int) (c : String) (r : Row) :
    r ∈ query_range store w c ↔ r ∈ store ∧ w ≤ r.timestamp ∧ r.connection_name = c := by
  unfold query_range
  rw [mem_sortRows, List.mem_filter]
  simp

theorem mem_insertSortedInt (a x : Int) (l : List Int) :
    x ∈ insertSortedInt a l ↔ x = a ∨ x ∈ l := by
  induction l with
  | nil => simp [insertSortedInt]
  | cons b bs ih =>
    unfold insertSortedInt
    by_cases h : a ≤ b
    · rw [if_pos h]
      simp
    · rw [if_neg h]
      simp [ih]
      tauto

theorem mem_sortInts (x : Int) (l : List Int) :
    x ∈ sortInts l ↔ x ∈ l := by
  induction l with
  | nil => simp [sortInts]
  | cons a as ih =>
    unfold sortInts
    rw [mem_insertSortedInt]
    simp [ih]

theorem sorted_insertSortedInt (a : Int) (l : List Int)
    (h : l.Sorted (· ≤ ·)) : (insertSortedInt a l).Sorted (· ≤ ·) := by
  induction l with
  | nil => simp [insertSortedInt]
  | cons b bs ih =>
    rw [List.sorted_cons] at h
    obtain ⟨hb, hbs⟩ := h
    unfold insertSortedInt
    by_cases hab : a ≤ b
    · rw [if_pos hab, List.sorted_cons]
      refine ⟨?_, List.sorted_cons.mpr ⟨hb, hbs⟩⟩
      intro x hx
      rcases List.mem_cons.mp hx with rfl | hx'
      · exact hab
      · exact le_trans hab (hb x hx')
    · rw [if_neg hab, List.sorted_cons]
      refine ⟨?_, ih hbs⟩
      intro x hx
      rcases (mem_insertSortedInt a x bs).mp hx with rfl | hx'
      · exact le_of_not_le hab
      · exact hb x hx'

theorem sorted_sortInts (l : List Int) : (sortInts l).Sorted (· ≤ ·) := by
  induction l with
  | nil => simp [sortInts]
  | cons a as ih => exact sorted_insertSortedInt a (sortInts as) ih

theorem nodup_insertSortedInt (a : Int) (l : List Int)
    (ha : a ∉ l) (h : l.Nodup) : (insertSortedInt a l).Nodup := by
  induction l with
  | nil => simp [insertSortedInt]
  | cons b bs ih =>
    rcases List.nodup_cons.mp h with ⟨hb, hbs⟩
    unfold insertSortedInt
    by_cases hab : a ≤ b
    · rw [if_pos hab]
      exact List.nodup_cons.mpr ⟨ha, h⟩
    · rw [if_neg hab]
      refine List.nodup_cons.mpr
        ⟨?_, ih (fun hm => ha (List.mem_cons_of_mem b hm)) hbs⟩
      intro hmem
      rcases (mem_insertSortedInt a b bs).mp hmem with heq | hm'
      · exact ha (heq ▸ List.mem_cons_self b bs)
      · exact hb hm'

theorem nodup_sortInts (l : List Int) (h : l.Nodup) : (sortInts l).Nodup := by
  induction l with
  | nil => simp [sortInts]
  | cons a as ih =>
    rcases List.nodup_cons.mp h with ⟨ha, has⟩
    exact nodup_insertSortedInt a (sortInts as)
      (fun hm => ha ((mem_sortInts a as).mp hm)) (ih has)

theorem sorted_lt_sortInts (l : List Int) (h : l.Nodup) :
    (sortInts l).Sorted (· < ·) :=
  List.Sorted.lt_of_le (sorted_sortInts l) (nodup_sortInts l h)

theorem addRow_cell (cd : Combined) (name : String) (ts : Int) (loss : ℚ)
    (t : Int) (n : String) :
    (addRow cd name ts loss).cell t n
      = if t = ts ∧ n = name ∧ 0 ≤ loss ∧ loss ≤ 100 then some loss
        else cd.cell t n := by
  unfold addRow
  by_cases hr : 0 ≤ loss ∧ loss ≤ 100
  · rw [if_pos hr]
    show (if t = ts ∧ n = name then some loss else cd.cell t n) = _
    by_cases ht : t = ts ∧ n = name
    · rw [if_pos ht, if_pos ⟨ht.1, ht.2, hr⟩]
    · rw [if_neg ht, if_neg fun hx => ht ⟨hx.1, hx.2.1⟩]
  · rw [if_neg hr]
    show cd.cell t n = _
    rw [if_neg fun hx => hr hx.2.2]

theorem addRow_keys_mem (cd : Combined) (name : String) (ts : Int) (loss : ℚ)
    (t : Int) :
    t ∈ (addRow cd name ts loss).keys
      ↔ t ∈ cd.keys ∨ (t = ts ∧ 0 ≤ loss ∧ loss ≤ 100) := by
  unfold addRow
  by_cases hr : 0 ≤ loss ∧ loss ≤ 100
  · rw [if_pos hr]
    show t ∈ (if ts ∈ cd.keys then cd.keys else cd.keys ++ [ts]) ↔ _
    by_cases hk : ts ∈ cd.keys
    · rw [if_pos hk]
      constructor
      · exact Or.inl
      · rintro (h | ⟨rfl, -⟩)
        · exact h
        · exact hk
    · rw [if_neg hk]
      rw [List.mem_append, List.mem_singleton]
      constructor
      · rintro (h | rfl)
        · exact Or.inl h
        · exact Or.inr ⟨rfl, hr⟩
      · rintro (h | ⟨rfl, -⟩)
        · exact Or.inl h
        · exact Or.inr rfl
  · rw [if_neg hr]
    show t ∈ cd.keys ↔ _
    constructor
    · exact Or.inl
    · rintro (h | ⟨-, hr'⟩)
      · exact h
      · exact absurd hr' hr

theorem addRow_keys_nodup (cd : Combined) (name : String) (ts : Int) (loss : ℚ)
    (h : cd.keys.Nodup) : (addRow cd name ts loss).keys.Nodup := by
  unfold addRow
  by_cases hr : 0 ≤ loss ∧ loss ≤ 100
  · rw [if_pos hr]
    show (if ts ∈ cd.keys then cd.keys else cd.keys ++ [ts]).Nodup
    by_cases hk : ts ∈ cd.keys
    · rw [if_pos hk]
      exact h
    · rw [if_neg hk]
      refine List.Nodup.append h (List.nodup_singleton ts) ?_
      intro x hx hx'
      rw [List.mem_singleton] at hx'
      exact hk (hx' ▸ hx)
  · rw [if_neg hr]
    exact h

theorem mergeFold_cell (ps : List (String × Row)) (cd : Combined) (t : Int)
    (n : String) :
    (ps.foldl (fun cd p => addRow cd p.1 p.2.timestamp p.2.packet_loss) cd).cell t n
      = ps.foldl
          (fun acc p =>
            if t = p.2.timestamp ∧ n = p.1 ∧ 0 ≤ p.2.packet_loss ∧ p.2.packet_loss ≤ 100
            then some p.2.packet_loss else acc)
          (cd.cell t n) := by
  induction ps generalizing cd with
  | nil => rfl
  | cons p ps ih =>
    simp only [List.foldl_cons]
    rw [ih, addRow_cell]

theorem mergeFold_keys_mem (ps : List (String × Row)) (cd : Combined) (t : Int) :
    t ∈ (ps.foldl (fun cd p => addRow cd p.1 p.2.timestamp p.2.packet_loss) cd).keys
      ↔ t ∈ cd.keys
        ∨ ∃ p ∈ ps, t = p.2.timestamp ∧ 0 ≤ p.2.packet_loss ∧ p.2.packet_loss ≤ 100 := by
  induction ps generalizing cd with
  | nil => simp
  | cons p ps ih =>
    simp only [List.foldl_cons]
    rw [ih, addRow_keys_mem, List.exists_mem_cons_iff]
    tauto

theorem mergeFold_keys_nodup (ps : List (String × Row)) (cd : Combined)
    (h : cd.keys.Nodup) :
    (ps.foldl (fun cd p => addRow cd p.1 p.2.timestamp p.2.packet_loss) cd).keys.Nodup := by
  induction ps generalizing cd with
  | nil => exact h
  | cons p ps ih =>
    simp only [List.foldl_cons]
    exact ih _ (addRow_keys_nodup _ _ _ _ h)

theorem taggedFold_some (ps : List (String × Row)) (t : Int) (n : String)
    (init : Option ℚ) (v : ℚ)
    (h : ps.foldl
        (fun acc p =>
          if t = p.2.timestamp ∧ n = p.1 ∧ 0 ≤ p.2.packet_loss ∧ p.2.packet_loss ≤ 100
          then some p.2.packet_loss else acc)
        init = some v) :
    (∃ p ∈ ps, p.1 = n ∧ p.2.timestamp = t ∧ p.2.packet_loss = v ∧ 0 ≤ v ∧ v ≤ 100)
    ∨ init = some v := by
  induction ps generalizing init with
  | nil => exact Or.inr h
  | cons p ps ih =>
    simp only [List.foldl_cons] at h
    rcases ih _ h with hex | hinit
    · obtain ⟨q, hq, hrest⟩ := hex
      exact Or.inl ⟨q, List.mem_cons_of_mem p hq, hrest⟩
    · by_cases hc : t = p.2.timestamp ∧ n = p.1
          ∧ 0 ≤ p.2.packet_loss ∧ p.2.packet_loss ≤ 100
      · rw [if_pos hc] at hinit
        injection hinit with hv
        exact Or.inl ⟨p, List.mem_cons_self p ps, hc.2.1.symm, hc.1.symm, hv,
          hv ▸ hc.2.2.1, hv ▸ hc.2.2.2⟩
      · rw [if_neg hc] at hinit
        exact Or.inr hinit

theorem taggedFold_no_hit (ps : List (String × Row)) (t : Int) (n : String)
    (init : Option ℚ) (h : ∀ p ∈ ps, p.1 ≠ n) :
    ps.foldl
        (fun acc p =>
          if t = p.2.timestamp ∧ n = p.1 ∧ 0 ≤ p.2.packet_loss ∧ p.2.packet_loss ≤ 100
          then some p.2.packet_loss else acc)
        init = init := by
  induction ps generalizing init with
  | nil => rfl
  | cons p ps ih =>
    simp only [List.foldl_cons]
    rw [if_neg fun hx => h p (List.mem_cons_self p ps) hx.2.1.symm]
    exact ih _ fun q hq => h q (List.mem_cons_of_mem p hq)

theorem taggedFold_self_name (rows : List Row) (t : Int) (X : String)
    (init : Option ℚ) :
    (rows.map fun r => (X, r)).foldl
        (fun acc p =>
          if t = p.2.timestamp ∧ X = p.1 ∧ 0 ≤ p.2.packet_loss ∧ p.2.packet_loss ≤ 100
          then some p.2.packet_loss else acc)
        init
      = rows.foldl
          (fun acc r =>
            if t = r.timestamp ∧ 0 ≤ r.packet_loss ∧ r.packet_loss ≤ 100
            then some r.packet_loss else acc)
          init := by
  induction rows generalizing init with
  | nil => rfl
  | cons r rows ih =>
    simp only [List.map_cons, List.foldl_cons]
    rw [ih]
    congr 1
    by_cases hc : t = r.timestamp ∧ 0 ≤ r.packet_loss ∧ r.packet_loss ≤ 100
    · rw [if_pos hc]
      exact if_pos ⟨hc.1, trivial, hc.2⟩
    · rw [if_neg hc]
      exact if_neg fun hx => hc ⟨hx.1, hx.2.2⟩

theorem lastInRangeFold_isSome (rows : List Row) (t : Int) (init : Option ℚ)
    (h : init.isSome) :
    (rows.foldl
        (fun acc r =>
          if t = r.timestamp ∧ 0 ≤ r.packet_loss ∧ r.packet_loss ≤ 100
          then some r.packet_loss else acc)
        init).isSome := by
  induction rows generalizing init with
  | nil => exact h
  | cons r rows ih =>
    simp only [List.foldl_cons]
    refine ih _ ?_
    by_cases hc : t = r.timestamp ∧ 0 ≤ r.packet_loss ∧ r.packet_loss ≤ 100
    · rw [if_pos hc]
      rfl
    · rw [if_neg hc]
      exact h

theorem lastInRangeValue_isSome (rows : List Row) (ts : Int)
    (h : ∃ r ∈ rows, ts = r.timestamp ∧ 0 ≤ r.packet_loss ∧ r.packet_loss ≤ 100) :
    (lastInRangeValue rows ts).isSome := by
  unfold lastInRangeValue
  induction rows with
  | nil =>
    obtain ⟨r, hr, -⟩ := h
    cases hr
  | cons r rows ih =>
    simp only [List.foldl_cons]
    by_cases hc : ts = r.timestamp ∧ 0 ≤ r.packet_loss ∧ r.packet_loss ≤ 100
    · rw [if_pos hc]
      exact lastInRangeFold_isSome rows ts (some r.packet_loss) rfl
    · rw [if_neg hc]
      obtain ⟨q, hq, hqc⟩ := h
      rcases List.mem_cons.mp hq with rfl | hq'
      · exact absurd hqc hc
      · exact ih ⟨q, hq', hqc⟩

theorem lastInRangeFold_some (rows : List Row) (ts : Int) (init : Option ℚ)
    (v : ℚ)
    (h : rows.foldl
        (fun acc r =>
          if ts = r.timestamp ∧ 0 ≤ r.packet_loss ∧ r.packet_loss ≤ 100
          then some r.packet_loss else acc)
        init = some v) :
    (∃ r ∈ rows, r.timestamp = ts ∧ r.packet_loss = v ∧ 0 ≤ v ∧ v ≤ 100)
    ∨ init = some v := by
  induction rows generalizing init with
  | nil => exact Or.inr h
  | cons r rows ih =>
    simp only [List.foldl_cons] at h
    rcases ih _ h with hex | hinit
    · obtain ⟨q, hq, hrest⟩ := hex
      exact Or.inl ⟨q, List.mem_cons_of_mem r hq, hrest⟩
    · by_cases hc : ts = r.timestamp ∧ 0 ≤ r.packet_loss ∧ r.packet_loss ≤ 100
      · rw [if_pos hc] at hinit
        injection hinit with hv
        exact Or.inl ⟨r, List.mem_cons_self r rows, hc.1.symm, hv,
          hv ▸ hc.2.1, hv ▸ hc.2.2⟩
      · rw [if_neg hc] at hinit
        exact Or.inr hinit

theorem lastInRangeValue_some (rows : List Row) (ts : Int) (v : ℚ)
    (h : lastInRangeValue rows ts = some v) :
    ∃ r ∈ rows, r.timestamp = ts ∧ r.packet_loss = v ∧ 0 ≤ v ∧ v ≤ 100 := by
  rcases lastInRangeFold_some rows ts none v h with hex | hnone
  · exact hex
  · cases hnone

theorem combinedOf_cell (store : List Row) (w : Int) (A B : String) (t : Int)
    (n : String) :
    (combinedOf store w A B).cell t n
      = (((query_range store w A).map fun r => (A, r))
          ++ ((query_range store w B).map fun r => (B, r))).foldl
          (fun acc p =>
            if t = p.2.timestamp ∧ n = p.1 ∧ 0 ≤ p.2.packet_loss ∧ p.2.packet_loss ≤ 100
            then some p.2.packet_loss else acc)
          none := by
  show ((((query_range store w A).map fun r => (A, r))
      ++ ((query_range store w B).map fun r => (B, r))).foldl
      (fun cd p => addRow cd p.1 p.2.timestamp p.2.packet_loss)
      ⟨[], fun _ _ => none⟩).cell t n = _
  rw [mergeFold_cell]

theorem combinedOf_keys_nodup (store : List Row) (w : Int) (A B : String) :
    (combinedOf store w A B).keys.Nodup := by
  show ((((query_range store w A).map fun r => (A, r))
      ++ ((query_range store w B).map fun r => (B, r))).foldl
      (fun cd p => addRow cd p.1 p.2.timestamp p.2.packet_loss)
      ⟨[], fun _ _ => none⟩).keys.Nodup
  exact mergeFold_keys_nodup _ _ List.nodup_nil

theorem combinedOf_keys_mem (store : List Row) (w : Int) (A B : String) (t : Int) :
    t ∈ (combinedOf store w A B).keys
      ↔ (∃ r ∈ query_range store w A,
            r.timestamp = t ∧ 0 ≤ r.packet_loss ∧ r.packet_loss ≤ 100)
        ∨ (∃ r ∈ query_range store w B,
            r.timestamp = t ∧ 0 ≤ r.packet_loss ∧ r.packet_loss ≤ 100) := by
  show t ∈ ((((query_range store w A).map fun r => (A, r))
      ++ ((query_range store w B).map fun r => (B, r))).foldl
      (fun cd p => addRow cd p.1 p.2.timestamp p.2.packet_loss)
      ⟨[], fun _ _ => none⟩).keys ↔ _
  rw [mergeFold_keys_mem]
  constructor
  · rintro (h | ⟨p, hp, ht, h0, h1⟩)
    · exact absurd h (List.not_mem_nil t)
    · rcases List.mem_append.mp hp with hA | hB
      · obtain ⟨r, hr, rfl⟩ := List.mem_map.mp hA
        exact Or.inl ⟨r, hr, ht.symm, h0, h1⟩
      · obtain ⟨r, hr, rfl⟩ := List.mem_map.mp hB
        exact Or.inr ⟨r, hr, ht.symm, h0, h1⟩
  · rintro (⟨r, hr, ht, h0, h1⟩ | ⟨r, hr, ht, h0, h1⟩)
    · exact Or.inr ⟨(A, r),
        List.mem_append.mpr (Or.inl (List.mem_map_of_mem _ hr)), ht.symm, h0, h1⟩
    · exact Or.inr ⟨(B, r),
        List.mem_append.mpr (Or.inr (List.mem_map_of_mem _ hr)), ht.symm, h0, h1⟩

theorem combinedOf_cell_left (store : List Row) (w : Int) (A B : String)
    (t : Int) (hBA : B ≠ A) :
    (combinedOf store w A B).cell t A = lastInRangeValue (query_range store w A) t := by
  rw [combinedOf_cell, List.foldl_append]
  rw [taggedFold_no_hit ((query_range store w B).map fun r => (B, r)) t A _
    fun p hp => by
      obtain ⟨r, hr, rfl⟩ := List.mem_map.mp hp
      exact hBA]
  rw [taggedFold_self_name]
  rfl

theorem combinedOf_cell_right (store : List Row) (w : Int) (A B : String)
    (t : Int) (hAB : A ≠ B) :
    (combinedOf store w A B).cell t B = lastInRangeValue (query_range store w B) t := by
  rw [combinedOf_cell, List.foldl_append]
  rw [taggedFold_no_hit ((query_range store w A).map fun r => (A, r)) t B none
    fun p hp => by
      obtain ⟨r, hr, rfl⟩ := List.mem_map.mp hp
      exact hAB]
  rw [taggedFold_self_name]
  rfl

theorem combinedOf_cell_some_left (store : List Row) (w : Int) (A B : String)
    (t : Int) (v : ℚ) (h : (combinedOf store w A B).cell t A = some v) :
    ∃ r ∈ query_range store w A,
      r.timestamp = t ∧ r.packet_loss = v ∧ 0 ≤ v ∧ v ≤ 100 := by
  rw [combinedOf_cell] at h
  rcases taggedFold_some _ _ _ _ _ h with hex | hnone
  · obtain ⟨p, hp, hname, htime, hloss, hv0, hv1⟩ := hex
    rcases List.mem_append.mp hp with hA | hB
    · obtain ⟨r, hr, rfl⟩ := List.mem_map.mp hA
      exact ⟨r, hr, htime, hloss, hv0, hv1⟩
    · obtain ⟨r, hr, rfl⟩ := List.mem_map.mp hB
      subst hname
      exact ⟨r, hr, htime, hloss, hv0, hv1⟩
  · cases hnone

theorem combinedOf_cell_some_right (store : List Row) (w : Int) (A B : String)
    (t : Int) (v : ℚ) (h : (combinedOf store w A B).cell t B = some v) :
    ∃ r ∈ query_range store w B,
      r.timestamp = t ∧ r.packet_loss = v ∧ 0 ≤ v ∧ v ≤ 100 := by
  rw [combinedOf_cell] at h
  rcases taggedFold_some _ _ _ _ _ h with hex | hnone
  · obtain ⟨p, hp, hname, htime, hloss, hv0, hv1⟩ := hex
    rcases List.mem_append.mp hp with hA | hB
    · obtain ⟨r, hr, rfl⟩ := List.mem_map.mp hA
      subst hname
      exact ⟨r, hr, htime, hloss, hv0, hv1⟩
    · obtain ⟨r, hr, rfl⟩ := List.mem_map.mp hB
      exact ⟨r, hr, htime, hloss, hv0, hv1⟩
  · cases hnone

unseal Rat.add Rat.mul Rat.inv Rat.sub in
/-- C3 counterexample: the window-average read path applies no read-time
range filter. On a store holding a single out-of-range Observation (loss
`150`), `get_average_packet_loss` returns `150`: the out-of-range row
contributes to the returned average instead of being excluded (a
read-filtered average over this store would have been the empty
sentinel). -/
theorem C3_average_no_read_filter_counterexample :
    get_average_packet_loss [⟨100, "ISP-A", "1.1.1.1", 150⟩] 100 0 "ISP-A" = 150
    ∧ ¬((150 : ℚ) ≤ 100)
    ∧ get_average_packet_loss [⟨100, "ISP-A", "1.1.1.1", 150⟩] 100 0 "ISP-A"
        ≠ noDataSentinel :=
  ⟨by decide, by decide, by decide⟩

/-- C3 (amended): only the Series Merger read path excludes stored
out-of-range values at read time — every merged cell value and every
merged-row timestamp is witnessed by a stored in-window row with loss in
`[0,100]` — while `get_average_packet_loss` performs no read-time range
filter, so out-of-range stored rows do contribute to returned averages
(see the counterexample). -/
theorem C3_merger_read_filter_amended (store : List Row) (w : Int) (A B : String) :
    (∀ t v, (combinedOf store w A B).cell t A = some v →
      0 ≤ v ∧ v ≤ 100
      ∧ ∃ r ∈ store, w ≤ r.timestamp ∧ r.timestamp = t
          ∧ r.connection_name = A ∧ r.packet_loss = v)
    ∧ (∀ t v, (combinedOf store w A B).cell t B = some v →
      0 ≤ v ∧ v ≤ 100
      ∧ ∃ r ∈ store, w ≤ r.timestamp ∧ r.timestamp = t
          ∧ r.connection_name = B ∧ r.packet_loss = v)
    ∧ (∀ t, t ∈ (get_combined_packet_loss_data store w A B).1 →
        ∃ r ∈ store, w ≤ r.timestamp ∧ r.timestamp = t
          ∧ (r.connection_name = A ∨ r.connection_name = B)
          ∧ 0 ≤ r.packet_loss ∧ r.packet_loss ≤ 100) := by
  refine ⟨?_, ?_, ?_⟩
  · intro t v h
    obtain ⟨r, hr, htime, hloss, hv0, hv1⟩ := combinedOf_cell_some_left store w A B t v h
    obtain ⟨hmem, hw, hname⟩ := (mem_query_range store w A r).mp hr
    exact ⟨hv0, hv1, r, hmem, hw, htime, hname, hloss⟩
  · intro t v h
    obtain ⟨r, hr, htime, hloss, hv0, hv1⟩ := combinedOf_cell_some_right store w A B t v h
    obtain ⟨hmem, hw, hname⟩ := (mem_query_range store w B r).mp hr
    exact ⟨hv0, hv1, r, hmem, hw, htime, hname, hloss⟩
  · intro t ht
    have h1 : (get_combined_packet_loss_data store w A B).1
        = sortInts (combinedOf store w A B).keys := rfl
    rw [h1, mem_sortInts, combinedOf_keys_mem] at ht
    rcases ht with ⟨r, hr, htime, h0, h1'⟩ | ⟨r, hr, htime, h0, h1'⟩
    · obtain ⟨hmem, hw, hname⟩ := (mem_query_range store w A r).mp hr
      exact ⟨r, hmem, hw, htime, Or.inl hname, h0, h1'⟩
    · obtain ⟨hmem, hw, hname⟩ := (mem_query_range store w B r).mp hr
      exact ⟨r, hmem, hw, htime, Or.inr hname, h0, h1'⟩

unseal Rat.add Rat.mul Rat.inv Rat.sub in
theorem C3_merger_read_filter_amended_witness :
    0 ≤ (50 : ℚ) ∧ (50 : ℚ) ≤ 100
    ∧ ∃ r ∈ [(⟨100, "ISP-A", "1.1.1.1", 50⟩ : Row)],
        (0 : Int) ≤ r.timestamp ∧ r.timestamp = 100
          ∧ r.connection_name = "ISP-A" ∧ r.packet_loss = 50 :=
  (C3_merger_read_filter_amended [⟨100, "ISP-A", "1.1.1.1", 50⟩] 0 "ISP-A" "ISP-B").1
    100 50 (by decide)

/-- C7: For every store and pair of connection names, the merger output
has one cell list per connection of the same length as the timestamp list;
the timestamp list is strictly ascending (hence one row per distinct
timestamp); a timestamp appears exactly when some read-filtered (in-window,
in-range) observation of either connection carries it; each cell list is
exactly the per-timestamp cell lookup of the merged dictionary; and every
non-`None` cell value is a value present in that connection's range query
at that exact timestamp — never interpolated, never defaulted. -/
theorem C7_merger_union_rows (store : List Row) (w : Int) (A B : String) :
    ((get_combined_packet_loss_data store w A B).2.1).length
        = ((get_combined_packet_loss_data store w A B).1).length
    ∧ ((get_combined_packet_loss_data store w A B).2.2).length
        = ((get_combined_packet_loss_data store w A B).1).length
    ∧ ((get_combined_packet_loss_data store w A B).1).Sorted (· < ·)
    ∧ (∀ t, t ∈ (get_combined_packet_loss_data store w A B).1
        ↔ (∃ r ∈ query_range store w A,
              r.timestamp = t ∧ 0 ≤ r.packet_loss ∧ r.packet_loss ≤ 100)
          ∨ (∃ r ∈ query_range store w B,
              r.timestamp = t ∧ 0 ≤ r.packet_loss ∧ r.packet_loss ≤ 100))
    ∧ (get_combined_packet_loss_data store w A B).2.1
        = ((get_combined_packet_loss_data store w A B).1).map
            (fun ts => (combinedOf store w A B).cell ts A)
    ∧ (get_combined_packet_loss_data store w A B).2.2
        = ((get_combined_packet_loss_data store w A B).1).map
            (fun ts => (combinedOf store w A B).cell ts B)
    ∧ (∀ t v, (combinedOf store w A B).cell t A = some v →
        ∃ r ∈ query_range store w A, r.timestamp = t ∧ r.packet_loss = v)
    ∧ (∀ t v, (combinedOf store w A B).cell t B = some v →
        ∃ r ∈ query_range store w B, r.timestamp = t ∧ r.packet_loss = v) := by
  have h1 : (get_combined_packet_loss_data store w A B).1
      = sortInts (combinedOf store w A B).keys := rfl
  have h21 : (get_combined_packet_loss_data store w A B).2.1
      = (sortInts (combinedOf store w A B).keys).map
          (fun ts => (combinedOf store w A B).cell ts A) := rfl
  have h22 : (get_combined_packet_loss_data store w A B).2.2
      = (sortInts (combinedOf store w A B).keys).map
          (fun ts => (combinedOf store w A B).cell ts B) := rfl
  refine ⟨?_, ?_, ?_, ?_, ?_, ?_, ?_, ?_⟩
  · rw [h1, h21, List.length_map]
  · rw [h1, h22, List.length_map]
  · rw [h1]
    exact sorted_lt_sortInts _ (combinedOf_keys_nodup store w A B)
  · intro t
    rw [h1, mem_sortInts]
    exact combinedOf_keys_mem store w A B t
  · rw [h21, h1]
  · rw [h22, h1]
  · intro t v h
    obtain ⟨r, hr, htime, hloss, -, -⟩ := combinedOf_cell_some_left store w A B t v h
    exact ⟨r, hr, htime, hloss⟩
  · intro t v h
    obtain ⟨r, hr, htime, hloss, -, -⟩ := combinedOf_cell_some_right store w A B t v h
    exact ⟨r, hr, htime, hloss⟩

unseal Rat.add Rat.mul Rat.inv Rat.sub in
theorem C7_merger_union_rows_witness :
    ((get_combined_packet_loss_data [⟨5, "ISP-A", "1.1.1.1", 7⟩] 0 "ISP-A" "ISP-B").2.1).length
      = ((get_combined_packet_loss_data [⟨5, "ISP-A", "1.1.1.1", 7⟩] 0 "ISP-A" "ISP-B").1).length :=
  (C7_merger_union_rows [⟨5, "ISP-A", "1.1.1.1", 7⟩] 0 "ISP-A" "ISP-B").1

/-- C9: When one connection has two or more in-window, in-range
Observations at an identical timestamp, the merger's cell for that
timestamp is exactly the last such value in query order (dictionary
assignment overwrites in iteration order) — a single deterministic choice,
fixed as a pure function of the unmodified store — and in particular it is
`some v` for a `v` among those duplicate observations' values. -/
theorem C9_duplicate_timestamp_tie_break (store : List Row) (w : Int)
    (A B : String) (ts : Int) (hBA : B ≠ A)
    (hdup : 2 ≤ ((query_range store w A).filter fun r =>
        decide (ts = r.timestamp ∧ 0 ≤ r.packet_loss ∧ r.packet_loss ≤ 100)).length) :
    (combinedOf store w A B).cell ts A = lastInRangeValue (query_range store w A) ts
    ∧ ∃ v, (combinedOf store w A B).cell ts A = some v
        ∧ v ∈ ((query_range store w A).filter fun r =>
            decide (ts = r.timestamp ∧ 0 ≤ r.packet_loss ∧ r.packet_loss ≤ 100)).map
            Row.packet_loss := by
  have hc := combinedOf_cell_left store w A B ts hBA
  refine ⟨hc, ?_⟩
  have hnonnil : ((query_range store w A).filter fun r =>
      decide (ts = r.timestamp ∧ 0 ≤ r.packet_loss ∧ r.packet_loss ≤ 100)) ≠ [] := by
    intro hnil
    rw [hnil] at hdup
    exact absurd hdup (by decide)
  obtain ⟨r0, hr0⟩ := List.exists_mem_of_ne_nil _ hnonnil
  obtain ⟨hr0m, hr0c⟩ := List.mem_filter.mp hr0
  have hne : ∃ r ∈ query_range store w A,
      ts = r.timestamp ∧ 0 ≤ r.packet_loss ∧ r.packet_loss ≤ 100 :=
    ⟨r0, hr0m, of_decide_eq_true hr0c⟩
  obtain ⟨v, hv⟩ := Option.isSome_iff_exists.mp
    (lastInRangeValue_isSome (query_range store w A) ts hne)
  refine ⟨v, by rw [hc]; exact hv, ?_⟩
  obtain ⟨r, hr, htime, hloss, hv0, hv1⟩ :=
    lastInRangeValue_some (query_range store w A) ts v hv
  rw [List.mem_map]
  refine ⟨r, ?_, hloss⟩
  rw [List.mem_filter]
  exact ⟨hr, decide_eq_true ⟨htime.symm, hloss.symm ▸ hv0, hloss.symm ▸ hv1⟩⟩

unseal Rat.add Rat.mul Rat.inv Rat.sub in
theorem C9_duplicate_timestamp_tie_break_witness :
    (combinedOf [⟨100, "ISP-A", "1.1.1.1", 10⟩, ⟨100, "ISP-A", "1.1.1.1", 20⟩]
        0 "ISP-A" "ISP-B").cell 100 "ISP-A"
      = lastInRangeValue
          (query_range [⟨100, "ISP-A", "1.1.1.1", 10⟩, ⟨100, "ISP-A", "1.1.1.1", 20⟩]
            0 "ISP-A") 100
    ∧ ∃ v, (combinedOf [⟨100, "ISP-A", "1.1.1.1", 10⟩, ⟨100, "ISP-A", "1.1.1.1", 20⟩]
          0 "ISP-A" "ISP-B").cell 100 "ISP-A" = some v
        ∧ v ∈ ((query_range [⟨100, "ISP-A", "1.1.1.1", 10⟩, ⟨100, "ISP-A", "1.1.1.1", 20⟩]
              0 "ISP-A").filter fun r =>
            decide (100 = r.timestamp ∧ 0 ≤ r.packet_loss ∧ r.packet_loss ≤ 100)).map
            Row.packet_loss :=
  C9_duplicate_timestamp_tie_break
    [⟨100, "ISP-A", "1.1.1.1", 10⟩, ⟨100, "ISP-A", "1.1.1.1", 20⟩]
    0 "ISP-A" "ISP-B" 100 (by decide) (by decide)

theorem C4_parser_accepts_exactly_valid_hops_witness :
    TracerouteMonitor.parseHops [" 2.|-- a.net 6.0% 1"]
      = [" 2.|-- a.net 6.0% 1"].filterMap TracerouteMonitor.hopLoss :=
  (C4_parser_accepts_exactly_valid_hops "").2.1 [" 2.|-- a.net 6.0% 1"]
